import Mathlib

/-!
Verification development for the monochromatic source-field evaluators of
`sfs/mono/source.py` (point, point-in-room modal, line, line-dipole and
plane-wave sources).

Two complementary embeddings are used:

* a value layer: every evaluator acts elementwise over the broadcast grid,
  so its numerics are embedded pointwise, with grid coordinates as real
  numbers and fields as complex numbers;
* a shape layer: a computable calculus of numpy array shapes
  (broadcasting, `np.tile`, accumulator folding) embedding the shape
  behaviour of the same evaluators.

The special functions `scipy.special.hankel2` are external primitives and
are taken as an explicit function parameter.
-/

noncomputable section

namespace SFS

/-- Modelled from the spec: the physical-constants provider `defs` is not
part of the sources; `defs.c` is the process-wide default speed of sound,
a fixed positive real constant. -/
def defs_c : ℝ := 343

/-- Modelled from the spec: `defs.rho0`, the process-wide default air
density, a fixed positive real constant. -/
def defs_rho0 : ℝ := 1.225

/-- Modelled from the spec: `util.wavenumber(omega, c)` returns
`k = omega / c`, with `c` defaulting to the global constant when omitted. -/
def wavenumber (omega : ℝ) (c : Option ℝ) : ℝ := omega / c.getD defs_c

/-- Modelled from the spec: `np.linalg.norm(grid - x0)` on the
3-component grid structure is the elementwise Euclidean norm across the
three axes, collapsing to the broadcast shape; pointwise it is the
square root of the sum of the squared components. -/
def norm3 (v : Fin 3 → ℝ) : ℝ := Real.sqrt (v 0 ^ 2 + v 1 ^ 2 + v 2 ^ 2)

/-- Modelled from the spec: the same elementwise Euclidean norm over the
first two (x, y) components only, used by the line-type sources. -/
def norm2 (v : Fin 2 → ℝ) : ℝ := Real.sqrt (v 0 ^ 2 + v 1 ^ 2)

/-- `point(omega, x0, n0, grid, c)`, pointwise at grid point `X`:
`1 / (4*np.pi) * np.exp(-1j * k * r) / r` with `r = ‖X - x0‖`.
The normal vector `n0` is unused by the code. -/
def point (omega : ℝ) (x0 X : Fin 3 → ℝ) (c : Option ℝ) : ℂ :=
  let k := wavenumber omega c
  let r := norm3 (fun i => X i - x0 i)
  1 / (4 * (Real.pi : ℂ)) * Complex.exp (-Complex.I * k * r) / r

/-- `point_velocity(omega, x0, n0, grid, c)`, pointwise: the point
pressure times `(1+1j*k*r) / (defs.rho0 * defs.c * 1j*k*r)`, projected
on each axis via `o / r` for `o = X - x0`. -/
def point_velocity (omega : ℝ) (x0 X : Fin 3 → ℝ) (c : Option ℝ) :
    Fin 3 → ℂ :=
  let k := wavenumber omega c
  let offset := fun i => X i - x0 i
  let r := norm3 offset
  let v := point omega x0 X c *
    ((1 + Complex.I * k * r) /
      ((defs_rho0 : ℂ) * (defs_c : ℂ) * Complex.I * k * r))
  fun i => v * offset i / r

/-- The three accepted classes of the modal-order argument `N`:
`None` (auto), a scalar, or a length-3 sequence of mode indices. -/
inductive ModalN where
  | auto : ModalN
  | scalar : ℕ → ModalN
  | triple : ℕ × ℕ × ℕ → ModalN

/-- The mode-index ranges `mm, nn, ll` computed by the identical dispatch
block at the top of both `point_modal` and `point_modal_velocity`:
`range(int(np.ceil(L[i]/np.pi * k)))` per axis when `N is None`,
`range(N)` for scalar `N`, and the singleton lists `[N[0]], [N[1]], [N[2]]`
otherwise.  `int(np.ceil(x))` on a possibly non-positive value followed by
`range` yields the empty range, hence `Int.toNat`. -/
def modeIndices (k : ℝ) (L : Fin 3 → ℝ) : ModalN → List ℕ × List ℕ × List ℕ
  | .auto =>
      (List.range (Int.ceil (L 0 / Real.pi * k)).toNat,
       List.range (Int.ceil (L 1 / Real.pi * k)).toNat,
       List.range (Int.ceil (L 2 / Real.pi * k)).toNat)
  | .scalar n => (List.range n, List.range n, List.range n)
  | .triple t => ([t.1], [t.2.1], [t.2.2])

/-- `itertools.product` of two lists, first factor varying slowest. -/
def listProd {α β : Type} : List α → List β → List (α × β)
  | [], _ => []
  | x :: xs, ys => ys.map (fun y => (x, y)) ++ listProd xs ys

/-- `point_modal(omega, x0, n0, grid, L, N, deltan, c)`, pointwise at grid
point `X`.  Each axis builds the list of pairs
`((k_m + 1j*deltan)**2, np.cos(k_m*coord) * np.cos(k_m*x0[i]))` for
`k_m = m*np.pi/L[i]` over its mode range, and the pressure accumulates
`p + 8 / (ksquared - km) * p0 * p1 * p2` over `itertools.product` of the
three lists, starting from the scalar `0`. -/
def point_modal (omega : ℝ) (x0 X L : Fin 3 → ℝ) (N : ModalN)
    (deltan : ℝ) (c : Option ℝ) : ℂ :=
  let k := wavenumber omega c
  let mnl := modeIndices k L N
  let kmp0 := mnl.1.map (fun (m : ℕ) =>
    let kx := (m : ℝ) * Real.pi / L 0
    (((kx : ℂ) + Complex.I * deltan) ^ 2,
     Real.cos (kx * X 0) * Real.cos (kx * x0 0)))
  let kmp1 := mnl.2.1.map (fun (n : ℕ) =>
    let ky := (n : ℝ) * Real.pi / L 1
    (((ky : ℂ) + Complex.I * deltan) ^ 2,
     Real.cos (ky * X 1) * Real.cos (ky * x0 1)))
  let kmp2 := mnl.2.2.map (fun (l : ℕ) =>
    let kz := (l : ℝ) * Real.pi / L 2
    (((kz : ℂ) + Complex.I * deltan) ^ 2,
     Real.cos (kz * X 2) * Real.cos (kz * x0 2)))
  let ksquared := (k : ℂ) ^ 2
  (listProd kmp0 (listProd kmp1 kmp2)).foldl
    (fun p t =>
      p + 8 / (ksquared - (t.1.1 + t.2.1.1 + t.2.2.1)) *
        (t.1.2 : ℂ) * (t.2.1.2 : ℂ) * (t.2.2.2 : ℂ)) 0

/-- `point_modal_velocity(omega, x0, n0, grid, L, N, deltan, c)`,
pointwise.  The per-axis pair lists use `np.sin(k_m*coord)*np.cos(k_m*x0[i])`
and the three accumulators start at `0+0j` and take
`v_i - 8*1j / (ksquared - km) * p_i` over the same product, each axis
multiplying only its own basis term. -/
def point_modal_velocity (omega : ℝ) (x0 X L : Fin 3 → ℝ) (N : ModalN)
    (deltan : ℝ) (c : Option ℝ) : ℂ × ℂ × ℂ :=
  let k := wavenumber omega c
  let mnl := modeIndices k L N
  let kmp0 := mnl.1.map (fun (m : ℕ) =>
    let kx := (m : ℝ) * Real.pi / L 0
    (((kx : ℂ) + Complex.I * deltan) ^ 2,
     Real.sin (kx * X 0) * Real.cos (kx * x0 0)))
  let kmp1 := mnl.2.1.map (fun (n : ℕ) =>
    let ky := (n : ℝ) * Real.pi / L 1
    (((ky : ℂ) + Complex.I * deltan) ^ 2,
     Real.sin (ky * X 1) * Real.cos (ky * x0 1)))
  let kmp2 := mnl.2.2.map (fun (l : ℕ) =>
    let kz := (l : ℝ) * Real.pi / L 2
    (((kz : ℂ) + Complex.I * deltan) ^ 2,
     Real.sin (kz * X 2) * Real.cos (kz * x0 2)))
  let ksquared := (k : ℂ) ^ 2
  (listProd kmp0 (listProd kmp1 kmp2)).foldl
    (fun v t =>
      (v.1 - 8 * Complex.I / (ksquared - (t.1.1 + t.2.1.1 + t.2.2.1)) *
         (t.1.2 : ℂ),
       v.2.1 - 8 * Complex.I / (ksquared - (t.1.1 + t.2.1.1 + t.2.2.1)) *
         (t.2.1.2 : ℂ),
       v.2.2 - 8 * Complex.I / (ksquared - (t.1.1 + t.2.1.1 + t.2.2.1)) *
         (t.2.2.2 : ℂ))) (0, 0, 0)

/-- `line(omega, x0, n0, grid, c)`, pointwise at in-plane grid point `X`:
`-1j/4 * special.hankel2(0, k * r)` with `r` over the x, y axes only and
the z-component of `x0` ignored.  The Hankel function of the second kind
is an external primitive, passed as the parameter `hankel2`. -/
def line (hankel2 : ℕ → ℂ → ℂ) (omega : ℝ) (x0 : Fin 3 → ℝ)
    (X : Fin 2 → ℝ) (c : Option ℝ) : ℂ :=
  let k := wavenumber omega c
  let r := norm2 (fun i => X i - x0 i.castSucc)
  (-Complex.I) / 4 * hankel2 0 (k * r)

/-- `line_velocity(omega, x0, n0, grid, c)`, pointwise.
`v = -1/(4*defs.c*defs.rho0) * special.hankel2(1, k * r)` projected on
the two in-plane axes via `o / r`; when the grid has a third component
(`len(grid) > 2`, here the flag `hasZ`), `np.zeros_like(v[0])` is
appended, pointwise the constant `0`.  The final `_duplicate_zdirection`
is the identity on pointwise values. -/
def line_velocity (hankel2 : ℕ → ℂ → ℂ) (omega : ℝ) (x0 : Fin 3 → ℝ)
    (X : Fin 2 → ℝ) (hasZ : Bool) (c : Option ℝ) : List ℂ :=
  let k := wavenumber omega c
  let offset := fun i : Fin 2 => X i - x0 i.castSucc
  let r := norm2 offset
  let v := -1 / (4 * (defs_c : ℂ) * (defs_rho0 : ℂ)) * hankel2 1 (k * r)
  let comps := [v * offset 0 / r, v * offset 1 / r]
  if hasZ then comps ++ [0] else comps

/-- `line_dipole(omega, x0, n0, grid, c)`, pointwise:
`1j*k/4 * special.hankel2(1, k * r) * np.inner(dx, n0) / r` with `dx` and
`n0` restricted to the x, y axes. -/
def line_dipole (hankel2 : ℕ → ℂ → ℂ) (omega : ℝ) (x0 n0 : Fin 3 → ℝ)
    (X : Fin 2 → ℝ) (c : Option ℝ) : ℂ :=
  let k := wavenumber omega c
  let dx := fun i : Fin 2 => X i - x0 i.castSucc
  let r := norm2 dx
  Complex.I * k / 4 * hankel2 1 (k * r) *
    ((dx 0 * n0 (0 : Fin 2).castSucc + dx 1 * n0 (1 : Fin 2).castSucc : ℝ) : ℂ) / r

/-- `plane(omega, x0, n0, grid, c)`, pointwise:
`np.exp(-1j * k * np.inner(grid - x0, n0))`, the inner product taken over
the three components elementwise. -/
def plane (omega : ℝ) (x0 n0 X : Fin 3 → ℝ) (c : Option ℝ) : ℂ :=
  let k := wavenumber omega c
  Complex.exp (-Complex.I * k *
    (((X 0 - x0 0) * n0 0 + (X 1 - x0 1) * n0 1 + (X 2 - x0 2) * n0 2 : ℝ) : ℂ))

/-- `plane_velocity(omega, x0, n0, grid, c)`, pointwise:
`plane(...) / (defs.rho0 * defs.c)` scaled by each component of `n0`. -/
def plane_velocity (omega : ℝ) (x0 n0 X : Fin 3 → ℝ) (c : Option ℝ) :
    Fin 3 → ℂ :=
  let v := plane omega x0 n0 X c / ((defs_rho0 : ℂ) * (defs_c : ℂ))
  fun i => v * (n0 i : ℂ)

/-- A numpy array shape: the list of dimension extents. -/
abbrev Shape := List ℕ

/-- numpy broadcasting of two aligned dimension extents: equal extents
combine, and an extent 1 stretches to the other. -/
def bdim (a b : ℕ) : Option ℕ :=
  if a = b then some a else if a = 1 then some b else if b = 1 then some a
    else none

/-- numpy broadcasting of two shapes given with their trailing dimension
first; a missing leading dimension behaves as extent 1. -/
def bcastRev : List ℕ → List ℕ → Option (List ℕ)
  | [], t => some t
  | s, [] => some s
  | a :: s, b :: t =>
    match bdim a b, bcastRev s t with
    | some d, some r => some (d :: r)
    | _, _ => none

/-- numpy broadcasting of two shapes (trailing dimensions aligned). -/
def bcast2 (s t : Shape) : Option Shape :=
  (bcastRev s.reverse t.reverse).map List.reverse

/-- The broadcast shape `np.broadcast(x, y, z).shape` of the three grid
components. -/
def bcast3 (s t u : Shape) : Option Shape :=
  (bcast2 s t).bind fun st => bcast2 st u

/-- Shape semantics of `np.tile(p, reps)`: both shape and reps are
promoted by prepending extents 1 to the longer length, then multiplied
elementwise. -/
def tileShape (p reps : Shape) : Shape :=
  List.zipWith (fun a b => a * b)
    (List.replicate (max p.length reps.length - p.length) 1 ++ p)
    (List.replicate (max p.length reps.length - reps.length) 1 ++ reps)

/-- Shape semantics of `_duplicate_zdirection(p, grid)`: when the grid's
broadcast shape has more than two dimensions, `np.tile(p, [1, 1,
gridshape[2]])`, else `p` unchanged. -/
def dupZShape (p gridshape : Shape) : Shape :=
  if 2 < gridshape.length then tileShape p [1, 1, gridshape.getD 2 0]
  else p

/-- Shape semantics of `point`: `r = norm(grid - x0)` collapses to the
broadcast shape of the three components (subtracting the scalar `x0[i]`
preserves each component's shape), and the pressure is an elementwise
expression of `r` divided by `r`. -/
def point_shape (sx sy sz : Shape) : Option Shape :=
  (bcast3 sx sy sz).bind fun r => bcast2 r r

/-- Shape semantics of `point_velocity`: the pressure times an
elementwise factor of `r`, then per axis `v * offset_i / r`. -/
def point_velocity_shape (sx sy sz : Shape) :
    Option (Shape × Shape × Shape) :=
  (bcast3 sx sy sz).bind fun r =>
  (point_shape sx sy sz).bind fun p =>
  (bcast2 p r).bind fun v =>
  (bcast2 v sx).bind fun a => (bcast2 a r).bind fun c0 =>
  (bcast2 v sy).bind fun b => (bcast2 b r).bind fun c1 =>
  (bcast2 v sz).bind fun d => (bcast2 d r).bind fun c2 =>
  some (c0, c1, c2)

/-- One step of a summation accumulator shape: starting from the scalar
shape `[]`, each loop iteration broadcasts the accumulator against the
term shape.  `foldShape t n` is the accumulator shape after `n`
iterations with term shape `t`. -/
def foldShape (t : Option Shape) : ℕ → Option Shape
  | 0 => some []
  | n + 1 => (foldShape t n).bind fun acc => t.bind fun tt => bcast2 acc tt

/-- Shape semantics of `point_modal` for mode ranges `mm, nn, ll`: each
term is scalar times `p0` (shape of x) times `p1` (shape of y) times `p2`
(shape of z), and the loop runs once per element of the triple product. -/
def point_modal_shape (sx sy sz : Shape) (mm nn ll : List ℕ) :
    Option Shape :=
  foldShape
    ((bcast2 [] sx).bind fun a => (bcast2 a sy).bind fun b => bcast2 b sz)
    (mm.length * (nn.length * ll.length))

/-- Shape semantics of `point_modal_velocity`: each axis accumulator
only ever absorbs scalar times that axis's own basis `p_i`, so its shape
broadcasts `[]` against that axis's component shape once per product
element. -/
def point_modal_velocity_shape (sx sy sz : Shape) (mm nn ll : List ℕ) :
    Option (Shape × Shape × Shape) :=
  (foldShape (bcast2 [] sx) (mm.length * (nn.length * ll.length))).bind
    fun vx =>
  (foldShape (bcast2 [] sy) (mm.length * (nn.length * ll.length))).bind
    fun vy =>
  (foldShape (bcast2 [] sz) (mm.length * (nn.length * ll.length))).bind
    fun vz =>
  some (vx, vy, vz)

/-- Shape semantics of `line`: the 2D result has the broadcast shape of
the x and y components only, then `_duplicate_zdirection` runs against
the broadcast shape of all three components. -/
def line_shape (sx sy sz : Shape) : Option Shape :=
  (bcast2 sx sy).bind fun r =>
  (bcast3 sx sy sz).bind fun g =>
  some (dupZShape r g)

/-- Shape semantics of `line_velocity`; `zcomp` is the shape of the grid's
z component when present (`len(grid) > 2`).  The `assert` of equal
in-plane component shapes is an error (`none`) when it fails, and a zero
field of the first component's shape is appended when the grid has a z
component before the per-component z-duplication. -/
def line_velocity_shape (sx sy : Shape) (zcomp : Option Shape) :
    Option (List Shape) :=
  (bcast2 sx sy).bind fun r =>
  (bcast2 r sx).bind fun a => (bcast2 a r).bind fun v0 =>
  (bcast2 r sy).bind fun b => (bcast2 b r).bind fun v1 =>
  if v0 = v1 then
    (match zcomp with
     | some sz => bcast3 sx sy sz
     | none => bcast2 sx sy).bind fun g =>
    some ((([v0, v1] ++
      (match zcomp with | some _ => [v0] | none => [])).map
        fun vi => dupZShape vi g))
  else none

/-- Shape semantics of `line_dipole`: like `line`, with the extra
elementwise factor `inner(dx, n0) / r` of the same 2D shape. -/
def line_dipole_shape (sx sy sz : Shape) : Option Shape :=
  (bcast2 sx sy).bind fun r =>
  (bcast2 r r).bind fun p =>
  (bcast3 sx sy sz).bind fun g =>
  some (dupZShape p g)

/-- Shape semantics of `plane`: the inner product with `n0` collapses
the three components to their broadcast shape. -/
def plane_shape (sx sy sz : Shape) : Option Shape :=
  bcast3 sx sy sz

/-- Shape semantics of `plane_velocity`: each component is the plane
pressure scaled by the scalar `n0[i]`. -/
def plane_velocity_shape (sx sy sz : Shape) :
    Option (Shape × Shape × Shape) :=
  (bcast3 sx sy sz).bind fun s => some (s, s, s)

/-- Value semantics of `np.tile(p, [1, 1, nz])` on a 3D array whose
third dimension has extent 1: entry `(a, b, cz)` of the tiled array reads
entry `(a, b, cz mod 1)` of `p`. -/
def tileZ {ny nx : ℕ} (p : Fin ny → Fin nx → Fin 1 → ℂ) (nz : ℕ) :
    Fin ny → Fin nx → Fin nz → ℂ :=
  fun a b cz => p a b ⟨cz.val % 1, Nat.mod_lt _ Nat.one_pos⟩

/-- `line` evaluated on a canonical 3D grid (x varying along the second
axis, y along the first, z along the third): the 2D field, of shape
`(ny, nx, 1)`, is computed from the x, y coordinates only and then tiled
across the z extent by `_duplicate_zdirection`. -/
def line_grid3 (hankel2 : ℕ → ℂ → ℂ) (omega : ℝ) (x0 : Fin 3 → ℝ)
    {nx ny : ℕ} (xs : Fin nx → ℝ) (ys : Fin ny → ℝ) (nz : ℕ)
    (c : Option ℝ) : Fin ny → Fin nx → Fin nz → ℂ :=
  tileZ (fun a b _ => line hankel2 omega x0 ![xs b, ys a] c) nz

/-- `line` evaluated on a canonical 2D grid (no third dimension in the
broadcast shape): `_duplicate_zdirection` returns the 2D result
unchanged. -/
def line_grid2 (hankel2 : ℕ → ℂ → ℂ) (omega : ℝ) (x0 : Fin 3 → ℝ)
    {nx ny : ℕ} (xs : Fin nx → ℝ) (ys : Fin ny → ℝ) (c : Option ℝ) :
    Fin ny → Fin nx → ℂ :=
  fun a b => line hankel2 omega x0 ![xs b, ys a] c

/-- Folding `p + f t` over a list starting from `init` yields `init` plus
the sum of the mapped terms. -/
lemma foldl_add_eq {α : Type} (f : α → ℂ) :
    ∀ (l : List α) (init : ℂ),
      l.foldl (fun p t => p + f t) init = init + (l.map f).sum := by
  intro l
  induction l with
  | nil => intro init; simp
  | cons x xs ih => intro init; simp [ih, add_assoc]

/-- Folding the componentwise subtraction of three mapped terms over a
list subtracts the three mapped sums from the initial triple. -/
lemma foldl_sub3_eq {α : Type} (f g h : α → ℂ) :
    ∀ (l : List α) (v : ℂ × ℂ × ℂ),
      l.foldl (fun v t => (v.1 - f t, v.2.1 - g t, v.2.2 - h t)) v =
        (v.1 - (l.map f).sum, v.2.1 - (l.map g).sum,
         v.2.2 - (l.map h).sum) := by
  intro l
  induction l with
  | nil => intro v; simp
  | cons x xs ih => intro v; simp [ih, sub_sub]

/-- Summing a function over `listProd` equals the corresponding nested
sums over the two factors. -/
lemma map_sum_listProd {α β : Type} (f : α × β → ℂ) :
    ∀ (xs : List α) (ys : List β),
      ((listProd xs ys).map f).sum =
        (xs.map fun x => (ys.map fun y => f (x, y)).sum).sum := by
  intro xs ys
  induction xs with
  | nil => simp [listProd]
  | cons x xs ih =>
      simp [listProd, ih, List.map_map, Function.comp_def]

/-- The negated sum of a list is the sum of the negated entries. -/
lemma neg_list_sum : ∀ l : List ℂ, -l.sum = (l.map fun x => -x).sum := by
  intro l
  induction l with
  | nil => simp
  | cons x xs ih => simp [ih, add_comm]

/-- The accumulation loop of `point_modal` evaluates to the triple sum,
over the Cartesian product of the three per-axis mode ranges, of
`8 / (k^2 - ((k_m0 + j deltan)^2 + (k_m1 + j deltan)^2 + (k_m2 + j deltan)^2))`
times the three cosine basis products. -/
lemma point_modal_eq_sum (omega : ℝ) (x0 X L : Fin 3 → ℝ) (N : ModalN)
    (deltan : ℝ) (c : Option ℝ) :
    point_modal omega x0 X L N deltan c =
      ((modeIndices (wavenumber omega c) L N).1.map fun (m : ℕ) =>
        ((modeIndices (wavenumber omega c) L N).2.1.map fun (n : ℕ) =>
          ((modeIndices (wavenumber omega c) L N).2.2.map fun (l : ℕ) =>
            (8 : ℂ) / ((wavenumber omega c : ℂ) ^ 2 -
                (((((m : ℝ) * Real.pi / L 0 : ℝ) : ℂ) + Complex.I * deltan) ^ 2 +
                 ((((n : ℝ) * Real.pi / L 1 : ℝ) : ℂ) + Complex.I * deltan) ^ 2 +
                 ((((l : ℝ) * Real.pi / L 2 : ℝ) : ℂ) + Complex.I * deltan) ^ 2)) *
              ((Real.cos ((m : ℝ) * Real.pi / L 0 * X 0) *
                Real.cos ((m : ℝ) * Real.pi / L 0 * x0 0) : ℝ) : ℂ) *
              ((Real.cos ((n : ℝ) * Real.pi / L 1 * X 1) *
                Real.cos ((n : ℝ) * Real.pi / L 1 * x0 1) : ℝ) : ℂ) *
              ((Real.cos ((l : ℝ) * Real.pi / L 2 * X 2) *
                Real.cos ((l : ℝ) * Real.pi / L 2 * x0 2) : ℝ) : ℂ)).sum).sum).sum := by
  simp only [point_modal]
  rw [foldl_add_eq, zero_add]
  simp only [map_sum_listProd, List.map_map]
  refine congrArg List.sum (List.map_congr_left fun m _ => ?_)
  refine congrArg List.sum (List.map_congr_left fun n _ => ?_)
  refine congrArg List.sum (List.map_congr_left fun l _ => ?_)
  simp only [Function.comp_apply]

/-- The accumulation loop of `point_modal_velocity` evaluates, on each
component, to the negated triple sum over the same mode-index product of
`8j / (k^2 - km)` times that component's own sine-cosine basis term. -/
lemma point_modal_velocity_eq (omega : ℝ) (x0 X L : Fin 3 → ℝ)
    (N : ModalN) (deltan : ℝ) (c : Option ℝ) :
    point_modal_velocity omega x0 X L N deltan c =
      (-((modeIndices (wavenumber omega c) L N).1.map fun (m : ℕ) =>
          ((modeIndices (wavenumber omega c) L N).2.1.map fun (n : ℕ) =>
            ((modeIndices (wavenumber omega c) L N).2.2.map fun (l : ℕ) =>
              (8 : ℂ) * Complex.I / ((wavenumber omega c : ℂ) ^ 2 -
                  (((((m : ℝ) * Real.pi / L 0 : ℝ) : ℂ) + Complex.I * deltan) ^ 2 +
                   ((((n : ℝ) * Real.pi / L 1 : ℝ) : ℂ) + Complex.I * deltan) ^ 2 +
                   ((((l : ℝ) * Real.pi / L 2 : ℝ) : ℂ) + Complex.I * deltan) ^ 2)) *
                ((Real.sin ((m : ℝ) * Real.pi / L 0 * X 0) *
                  Real.cos ((m : ℝ) * Real.pi / L 0 * x0 0) : ℝ) : ℂ)).sum).sum).sum,
       -((modeIndices (wavenumber omega c) L N).1.map fun (m : ℕ) =>
          ((modeIndices (wavenumber omega c) L N).2.1.map fun (n : ℕ) =>
            ((modeIndices (wavenumber omega c) L N).2.2.map fun (l : ℕ) =>
              (8 : ℂ) * Complex.I / ((wavenumber omega c : ℂ) ^ 2 -
                  (((((m : ℝ) * Real.pi / L 0 : ℝ) : ℂ) + Complex.I * deltan) ^ 2 +
                   ((((n : ℝ) * Real.pi / L 1 : ℝ) : ℂ) + Complex.I * deltan) ^ 2 +
                   ((((l : ℝ) * Real.pi / L 2 : ℝ) : ℂ) + Complex.I * deltan) ^ 2)) *
                ((Real.sin ((n : ℝ) * Real.pi / L 1 * X 1) *
                  Real.cos ((n : ℝ) * Real.pi / L 1 * x0 1) : ℝ) : ℂ)).sum).sum).sum,
       -((modeIndices (wavenumber omega c) L N).1.map fun (m : ℕ) =>
          ((modeIndices (wavenumber omega c) L N).2.1.map fun (n : ℕ) =>
            ((modeIndices (wavenumber omega c) L N).2.2.map fun (l : ℕ) =>
              (8 : ℂ) * Complex.I / ((wavenumber omega c : ℂ) ^ 2 -
                  (((((m : ℝ) * Real.pi / L 0 : ℝ) : ℂ) + Complex.I * deltan) ^ 2 +
                   ((((n : ℝ) * Real.pi / L 1 : ℝ) : ℂ) + Complex.I * deltan) ^ 2 +
                   ((((l : ℝ) * Real.pi / L 2 : ℝ) : ℂ) + Complex.I * deltan) ^ 2)) *
                ((Real.sin ((l : ℝ) * Real.pi / L 2 * X 2) *
                  Real.cos ((l : ℝ) * Real.pi / L 2 * x0 2) : ℝ) : ℂ)).sum).sum).sum) := by
  simp only [point_modal_velocity]
  rw [foldl_sub3_eq]
  simp only [zero_sub, map_sum_listProd, List.map_map, Prod.mk.injEq]
  refine ⟨congrArg Neg.neg ?_, congrArg Neg.neg ?_, congrArg Neg.neg ?_⟩ <;>
  · refine congrArg List.sum (List.map_congr_left fun m _ => ?_)
    refine congrArg List.sum (List.map_congr_left fun n _ => ?_)
    refine congrArg List.sum (List.map_congr_left fun l _ => ?_)
    simp only [Function.comp_apply]

/-- C1: for every call of `point_modal` with a non-empty mode range per
axis, the returned pressure equals the sum, over the Cartesian product of
the three axes' mode-index sets, of
`8 / (k^2 - ((k_mx + j deltan)^2 + (k_my + j deltan)^2 + (k_mz + j deltan)^2))`
times `cos(k_mx x) cos(k_mx x0_x)`, `cos(k_my y) cos(k_my x0_y)` and
`cos(k_mz z) cos(k_mz x0_z)`, where `k_mi = m pi / L_i` and
`k^2 = (omega/c)^2` is real and unshifted by `deltan`. -/
theorem point_modal_pressure_triple_sum (omega : ℝ) (x0 X L : Fin 3 → ℝ)
    (N : ModalN) (deltan : ℝ) (c : Option ℝ)
    (h0 : (modeIndices (wavenumber omega c) L N).1 ≠ [])
    (h1 : (modeIndices (wavenumber omega c) L N).2.1 ≠ [])
    (h2 : (modeIndices (wavenumber omega c) L N).2.2 ≠ []) :
    point_modal omega x0 X L N deltan c =
      ((modeIndices (wavenumber omega c) L N).1.map fun (m : ℕ) =>
        ((modeIndices (wavenumber omega c) L N).2.1.map fun (n : ℕ) =>
          ((modeIndices (wavenumber omega c) L N).2.2.map fun (l : ℕ) =>
            (8 : ℂ) / ((wavenumber omega c : ℂ) ^ 2 -
                (((((m : ℝ) * Real.pi / L 0 : ℝ) : ℂ) + Complex.I * deltan) ^ 2 +
                 ((((n : ℝ) * Real.pi / L 1 : ℝ) : ℂ) + Complex.I * deltan) ^ 2 +
                 ((((l : ℝ) * Real.pi / L 2 : ℝ) : ℂ) + Complex.I * deltan) ^ 2)) *
              ((Real.cos ((m : ℝ) * Real.pi / L 0 * X 0) *
                Real.cos ((m : ℝ) * Real.pi / L 0 * x0 0) : ℝ) : ℂ) *
              ((Real.cos ((n : ℝ) * Real.pi / L 1 * X 1) *
                Real.cos ((n : ℝ) * Real.pi / L 1 * x0 1) : ℝ) : ℂ) *
              ((Real.cos ((l : ℝ) * Real.pi / L 2 * X 2) *
                Real.cos ((l : ℝ) * Real.pi / L 2 * x0 2) : ℝ) : ℂ)).sum).sum).sum :=
  point_modal_eq_sum omega x0 X L N deltan c

/-- Witness for C1 at a concrete input with non-empty mode ranges. -/
theorem point_modal_pressure_triple_sum_witness :
    (modeIndices (wavenumber 1 (some 1)) ![1, 1, 1] (.scalar 1)).1 ≠ [] ∧
    point_modal 1 ![0, 0, 0] ![0, 0, 0] ![1, 1, 1] (.scalar 1) 0 (some 1) =
      ((modeIndices (wavenumber 1 (some 1)) ![1, 1, 1] (.scalar 1)).1.map fun (m : ℕ) =>
        ((modeIndices (wavenumber 1 (some 1)) ![1, 1, 1] (.scalar 1)).2.1.map fun (n : ℕ) =>
          ((modeIndices (wavenumber 1 (some 1)) ![1, 1, 1] (.scalar 1)).2.2.map fun (l : ℕ) =>
            (8 : ℂ) / ((wavenumber 1 (some 1) : ℂ) ^ 2 -
                (((((m : ℝ) * Real.pi / (![1, 1, 1] : Fin 3 → ℝ) 0 : ℝ) : ℂ) +
                    Complex.I * (0 : ℝ)) ^ 2 +
                 ((((n : ℝ) * Real.pi / (![1, 1, 1] : Fin 3 → ℝ) 1 : ℝ) : ℂ) +
                    Complex.I * (0 : ℝ)) ^ 2 +
                 ((((l : ℝ) * Real.pi / (![1, 1, 1] : Fin 3 → ℝ) 2 : ℝ) : ℂ) +
                    Complex.I * (0 : ℝ)) ^ 2)) *
              ((Real.cos ((m : ℝ) * Real.pi / (![1, 1, 1] : Fin 3 → ℝ) 0 *
                    (![0, 0, 0] : Fin 3 → ℝ) 0) *
                Real.cos ((m : ℝ) * Real.pi / (![1, 1, 1] : Fin 3 → ℝ) 0 *
                    (![0, 0, 0] : Fin 3 → ℝ) 0) : ℝ) : ℂ) *
              ((Real.cos ((n : ℝ) * Real.pi / (![1, 1, 1] : Fin 3 → ℝ) 1 *
                    (![0, 0, 0] : Fin 3 → ℝ) 1) *
                Real.cos ((n : ℝ) * Real.pi / (![1, 1, 1] : Fin 3 → ℝ) 1 *
                    (![0, 0, 0] : Fin 3 → ℝ) 1) : ℝ) : ℂ) *
              ((Real.cos ((l : ℝ) * Real.pi / (![1, 1, 1] : Fin 3 → ℝ) 2 *
                    (![0, 0, 0] : Fin 3 → ℝ) 2) *
                Real.cos ((l : ℝ) * Real.pi / (![1, 1, 1] : Fin 3 → ℝ) 2 *
                    (![0, 0, 0] : Fin 3 → ℝ) 2) : ℝ) : ℂ)).sum).sum).sum :=
  ⟨by simp [modeIndices],
   point_modal_pressure_triple_sum 1 ![0, 0, 0] ![0, 0, 0] ![1, 1, 1]
     (.scalar 1) 0 (some 1) (by simp [modeIndices]) (by simp [modeIndices])
     (by simp [modeIndices])⟩

/-- C2: each component of `point_modal_velocity` is the sum, over the same
Cartesian product of mode-index triples, of
`-8j / (k^2 - ((k_mx + j deltan)^2 + (k_my + j deltan)^2 + (k_mz + j deltan)^2))`
multiplied by only that axis's own basis term
`sin(k_mi coord_i) cos(k_mi x0_i)`; the bases of the other two axes are not
multiplied into the accumulated term. -/
theorem point_modal_velocity_component_sums (omega : ℝ) (x0 X L : Fin 3 → ℝ)
    (N : ModalN) (deltan : ℝ) (c : Option ℝ) :
    point_modal_velocity omega x0 X L N deltan c =
      (((modeIndices (wavenumber omega c) L N).1.map fun (m : ℕ) =>
          ((modeIndices (wavenumber omega c) L N).2.1.map fun (n : ℕ) =>
            ((modeIndices (wavenumber omega c) L N).2.2.map fun (l : ℕ) =>
              (-(8 * Complex.I)) / ((wavenumber omega c : ℂ) ^ 2 -
                  (((((m : ℝ) * Real.pi / L 0 : ℝ) : ℂ) + Complex.I * deltan) ^ 2 +
                   ((((n : ℝ) * Real.pi / L 1 : ℝ) : ℂ) + Complex.I * deltan) ^ 2 +
                   ((((l : ℝ) * Real.pi / L 2 : ℝ) : ℂ) + Complex.I * deltan) ^ 2)) *
                ((Real.sin ((m : ℝ) * Real.pi / L 0 * X 0) *
                  Real.cos ((m : ℝ) * Real.pi / L 0 * x0 0) : ℝ) : ℂ)).sum).sum).sum,
       ((modeIndices (wavenumber omega c) L N).1.map fun (m : ℕ) =>
          ((modeIndices (wavenumber omega c) L N).2.1.map fun (n : ℕ) =>
            ((modeIndices (wavenumber omega c) L N).2.2.map fun (l : ℕ) =>
              (-(8 * Complex.I)) / ((wavenumber omega c : ℂ) ^ 2 -
                  (((((m : ℝ) * Real.pi / L 0 : ℝ) : ℂ) + Complex.I * deltan) ^ 2 +
                   ((((n : ℝ) * Real.pi / L 1 : ℝ) : ℂ) + Complex.I * deltan) ^ 2 +
                   ((((l : ℝ) * Real.pi / L 2 : ℝ) : ℂ) + Complex.I * deltan) ^ 2)) *
                ((Real.sin ((n : ℝ) * Real.pi / L 1 * X 1) *
                  Real.cos ((n : ℝ) * Real.pi / L 1 * x0 1) : ℝ) : ℂ)).sum).sum).sum,
       ((modeIndices (wavenumber omega c) L N).1.map fun (m : ℕ) =>
          ((modeIndices (wavenumber omega c) L N).2.1.map fun (n : ℕ) =>
            ((modeIndices (wavenumber omega c) L N).2.2.map fun (l : ℕ) =>
              (-(8 * Complex.I)) / ((wavenumber omega c : ℂ) ^ 2 -
                  (((((m : ℝ) * Real.pi / L 0 : ℝ) : ℂ) + Complex.I * deltan) ^ 2 +
                   ((((n : ℝ) * Real.pi / L 1 : ℝ) : ℂ) + Complex.I * deltan) ^ 2 +
                   ((((l : ℝ) * Real.pi / L 2 : ℝ) : ℂ) + Complex.I * deltan) ^ 2)) *
                ((Real.sin ((l : ℝ) * Real.pi / L 2 * X 2) *
                  Real.cos ((l : ℝ) * Real.pi / L 2 * x0 2) : ℝ) : ℂ)).sum).sum).sum) := by
  rw [point_modal_velocity_eq]
  simp only [Prod.mk.injEq]
  refine ⟨?_, ?_, ?_⟩ <;>
    simp only [neg_list_sum, List.map_map, Function.comp_def, neg_div, neg_mul]

/-- C3: in both `point_modal` and `point_modal_velocity` the per-axis
mode-index set is determined from `N` as follows: when `N` is unspecified,
axis `i` ranges over `0` to `ceil(L_i/pi * k)` exclusive; when `N` is a
scalar, every axis ranges over `0` to `N` exclusive; when `N` is a
length-3 sequence, exactly the single mode-index triple
`(N[0], N[1], N[2])` is used and both evaluators return a single-term
evaluation with no summation. -/
theorem mode_order_selection (omega : ℝ) (x0 X L : Fin 3 → ℝ)
    (deltan : ℝ) (c : Option ℝ) :
    (modeIndices (wavenumber omega c) L .auto =
      (List.range (Int.ceil (L 0 / Real.pi * wavenumber omega c)).toNat,
       List.range (Int.ceil (L 1 / Real.pi * wavenumber omega c)).toNat,
       List.range (Int.ceil (L 2 / Real.pi * wavenumber omega c)).toNat)) ∧
    (∀ n : ℕ, modeIndices (wavenumber omega c) L (.scalar n) =
      (List.range n, List.range n, List.range n)) ∧
    (∀ t : ℕ × ℕ × ℕ, modeIndices (wavenumber omega c) L (.triple t) =
      ([t.1], [t.2.1], [t.2.2])) ∧
    (∀ a b d : ℕ,
      point_modal omega x0 X L (.triple (a, b, d)) deltan c =
        (8 : ℂ) / ((wavenumber omega c : ℂ) ^ 2 -
            (((((a : ℝ) * Real.pi / L 0 : ℝ) : ℂ) + Complex.I * deltan) ^ 2 +
             ((((b : ℝ) * Real.pi / L 1 : ℝ) : ℂ) + Complex.I * deltan) ^ 2 +
             ((((d : ℝ) * Real.pi / L 2 : ℝ) : ℂ) + Complex.I * deltan) ^ 2)) *
          ((Real.cos ((a : ℝ) * Real.pi / L 0 * X 0) *
            Real.cos ((a : ℝ) * Real.pi / L 0 * x0 0) : ℝ) : ℂ) *
          ((Real.cos ((b : ℝ) * Real.pi / L 1 * X 1) *
            Real.cos ((b : ℝ) * Real.pi / L 1 * x0 1) : ℝ) : ℂ) *
          ((Real.cos ((d : ℝ) * Real.pi / L 2 * X 2) *
            Real.cos ((d : ℝ) * Real.pi / L 2 * x0 2) : ℝ) : ℂ)) ∧
    (∀ a b d : ℕ,
      point_modal_velocity omega x0 X L (.triple (a, b, d)) deltan c =
        (-((8 : ℂ) * Complex.I / ((wavenumber omega c : ℂ) ^ 2 -
              (((((a : ℝ) * Real.pi / L 0 : ℝ) : ℂ) + Complex.I * deltan) ^ 2 +
               ((((b : ℝ) * Real.pi / L 1 : ℝ) : ℂ) + Complex.I * deltan) ^ 2 +
               ((((d : ℝ) * Real.pi / L 2 : ℝ) : ℂ) + Complex.I * deltan) ^ 2)) *
            ((Real.sin ((a : ℝ) * Real.pi / L 0 * X 0) *
              Real.cos ((a : ℝ) * Real.pi / L 0 * x0 0) : ℝ) : ℂ)),
         -((8 : ℂ) * Complex.I / ((wavenumber omega c : ℂ) ^ 2 -
              (((((a : ℝ) * Real.pi / L 0 : ℝ) : ℂ) + Complex.I * deltan) ^ 2 +
               ((((b : ℝ) * Real.pi / L 1 : ℝ) : ℂ) + Complex.I * deltan) ^ 2 +
               ((((d : ℝ) * Real.pi / L 2 : ℝ) : ℂ) + Complex.I * deltan) ^ 2)) *
            ((Real.sin ((b : ℝ) * Real.pi / L 1 * X 1) *
              Real.cos ((b : ℝ) * Real.pi / L 1 * x0 1) : ℝ) : ℂ)),
         -((8 : ℂ) * Complex.I / ((wavenumber omega c : ℂ) ^ 2 -
              (((((a : ℝ) * Real.pi / L 0 : ℝ) : ℂ) + Complex.I * deltan) ^ 2 +
               ((((b : ℝ) * Real.pi / L 1 : ℝ) : ℂ) + Complex.I * deltan) ^ 2 +
               ((((d : ℝ) * Real.pi / L 2 : ℝ) : ℂ) + Complex.I * deltan) ^ 2)) *
            ((Real.sin ((d : ℝ) * Real.pi / L 2 * X 2) *
              Real.cos ((d : ℝ) * Real.pi / L 2 * x0 2) : ℝ) : ℂ)))) := by
  refine ⟨rfl, fun n => rfl, fun t => rfl, fun a b d => ?_, fun a b d => ?_⟩
  · rw [point_modal_eq_sum]
    simp [modeIndices]
  · rw [point_modal_velocity_eq]
    simp [modeIndices]

/-- The imaginary part of a list sum is the sum of the imaginary parts. -/
lemma im_list_sum : ∀ l : List ℂ, l.sum.im = (l.map Complex.im).sum := by
  intro l
  induction l with
  | nil => simp
  | cons x xs ih => simp [ih]

/-- C10: with `deltan = 0` and no exact modal resonance, the pressure
returned by `point_modal` is real-valued: its imaginary part is exactly
zero at every grid point, because every squared mode wavenumber, every
denominator and every cosine basis product is then real. -/
theorem point_modal_rigid_walls_real (omega : ℝ) (x0 X L : Fin 3 → ℝ)
    (N : ModalN) (c : Option ℝ)
    (hres : ∀ m ∈ (modeIndices (wavenumber omega c) L N).1,
            ∀ n ∈ (modeIndices (wavenumber omega c) L N).2.1,
            ∀ l ∈ (modeIndices (wavenumber omega c) L N).2.2,
              (wavenumber omega c) ^ 2 ≠
                ((m : ℝ) * Real.pi / L 0) ^ 2 + ((n : ℝ) * Real.pi / L 1) ^ 2 +
                  ((l : ℝ) * Real.pi / L 2) ^ 2) :
    (point_modal omega x0 X L N 0 c).im = 0 := by
  rw [point_modal_eq_sum, im_list_sum]
  refine List.sum_eq_zero ?_
  intro x hx
  simp only [List.mem_map] at hx
  obtain ⟨y, ⟨m, hm, rfl⟩, rfl⟩ := hx
  rw [im_list_sum]
  refine List.sum_eq_zero ?_
  intro x hx
  simp only [List.mem_map] at hx
  obtain ⟨y, ⟨n, hn, rfl⟩, rfl⟩ := hx
  rw [im_list_sum]
  refine List.sum_eq_zero ?_
  intro x hx
  simp only [List.mem_map] at hx
  obtain ⟨y, ⟨l, hl, rfl⟩, rfl⟩ := hx
  have h : (8 : ℂ) / ((wavenumber omega c : ℂ) ^ 2 -
        (((((m : ℝ) * Real.pi / L 0 : ℝ) : ℂ) + Complex.I * ((0 : ℝ) : ℂ)) ^ 2 +
         ((((n : ℝ) * Real.pi / L 1 : ℝ) : ℂ) + Complex.I * ((0 : ℝ) : ℂ)) ^ 2 +
         ((((l : ℝ) * Real.pi / L 2 : ℝ) : ℂ) + Complex.I * ((0 : ℝ) : ℂ)) ^ 2)) *
      ((Real.cos ((m : ℝ) * Real.pi / L 0 * X 0) *
        Real.cos ((m : ℝ) * Real.pi / L 0 * x0 0) : ℝ) : ℂ) *
      ((Real.cos ((n : ℝ) * Real.pi / L 1 * X 1) *
        Real.cos ((n : ℝ) * Real.pi / L 1 * x0 1) : ℝ) : ℂ) *
      ((Real.cos ((l : ℝ) * Real.pi / L 2 * X 2) *
        Real.cos ((l : ℝ) * Real.pi / L 2 * x0 2) : ℝ) : ℂ) =
      ((8 / ((wavenumber omega c) ^ 2 -
          (((m : ℝ) * Real.pi / L 0) ^ 2 + ((n : ℝ) * Real.pi / L 1) ^ 2 +
            ((l : ℝ) * Real.pi / L 2) ^ 2)) *
        (Real.cos ((m : ℝ) * Real.pi / L 0 * X 0) *
          Real.cos ((m : ℝ) * Real.pi / L 0 * x0 0)) *
        (Real.cos ((n : ℝ) * Real.pi / L 1 * X 1) *
          Real.cos ((n : ℝ) * Real.pi / L 1 * x0 1)) *
        (Real.cos ((l : ℝ) * Real.pi / L 2 * X 2) *
          Real.cos ((l : ℝ) * Real.pi / L 2 * x0 2)) : ℝ) : ℂ) := by
    push_cast
    ring
  rw [h, Complex.ofReal_im]

/-- Witness for C10 at a concrete non-resonant input. -/
theorem point_modal_rigid_walls_real_witness :
    (point_modal 1 ![0, 0, 0] ![0, 0, 0] ![1, 1, 1] (.scalar 1) 0
      (some 1)).im = 0 :=
  point_modal_rigid_walls_real 1 ![0, 0, 0] ![0, 0, 0] ![1, 1, 1]
    (.scalar 1) (some 1) (by
      intro m hm n hn l hl
      simp only [modeIndices, List.mem_range, Nat.lt_one_iff] at hm hn hl
      subst hm; subst hn; subst hl
      simp [wavenumber])

/-- C8: for positive real frequency and sound speed and real position,
direction and grid, every element of the pressure field returned by
`plane` has complex modulus 1, since it is `exp(-j k <X - x0, n0>)` with a
purely real exponent argument. -/
theorem plane_unit_modulus (omega : ℝ) (x0 n0 X : Fin 3 → ℝ)
    (c : Option ℝ) (homega : 0 < omega) (hc : 0 < c.getD defs_c) :
    Complex.abs (plane omega x0 n0 X c) = 1 := by
  simp only [plane]
  rw [Complex.abs_exp]
  simp [Complex.mul_re, Complex.mul_im]

/-- Witness for C8 at a concrete input. -/
theorem plane_unit_modulus_witness :
    (0 : ℝ) < 1 ∧
    Complex.abs (plane 1 ![0, 0, 0] ![1, 0, 0] ![2, 0, 0] (some 1)) = 1 :=
  ⟨by norm_num,
   plane_unit_modulus 1 ![0, 0, 0] ![1, 0, 0] ![2, 0, 0] (some 1)
     (by norm_num) (by norm_num [Option.getD])⟩

/-- C7 (amended): for `r > 0`, each component of `point_velocity` equals
the point pressure `exp(-j k r)/(4 pi r)` times
`(1 + j k r) / (j k r rho0 c0)` times the projection `(X - x0)_i / r`,
where `rho0` and `c0` are the global default density and sound speed
`defs.rho0` and `defs.c`; the passed `c` enters only through
`k = omega/c`. -/
theorem point_velocity_formula (omega : ℝ) (x0 X : Fin 3 → ℝ)
    (c : Option ℝ) (i : Fin 3)
    (hr : 0 < norm3 (fun j => X j - x0 j)) :
    point_velocity omega x0 X c i =
      Complex.exp (-Complex.I * (wavenumber omega c : ℂ) *
          ((norm3 fun j => X j - x0 j : ℝ) : ℂ)) /
        (4 * (Real.pi : ℂ) * ((norm3 fun j => X j - x0 j : ℝ) : ℂ)) *
      ((1 + Complex.I * (wavenumber omega c : ℂ) *
          ((norm3 fun j => X j - x0 j : ℝ) : ℂ)) /
        (Complex.I * (wavenumber omega c : ℂ) *
          ((norm3 fun j => X j - x0 j : ℝ) : ℂ) *
          (defs_rho0 : ℂ) * (defs_c : ℂ))) *
      (((X i - x0 i : ℝ) : ℂ) / ((norm3 fun j => X j - x0 j : ℝ) : ℂ)) := by
  simp only [point_velocity, point]
  push_cast
  ring

/-- Witness for C7's amended statement at a concrete input with `r = 1`. -/
theorem point_velocity_formula_witness :
    0 < norm3 (fun j => (![1, 0, 0] : Fin 3 → ℝ) j -
        (![0, 0, 0] : Fin 3 → ℝ) j) ∧
    point_velocity 1 ![0, 0, 0] ![1, 0, 0] (some 1) 0 =
      Complex.exp (-Complex.I * (wavenumber 1 (some 1) : ℂ) *
          ((norm3 fun j => (![1, 0, 0] : Fin 3 → ℝ) j -
              (![0, 0, 0] : Fin 3 → ℝ) j : ℝ) : ℂ)) /
        (4 * (Real.pi : ℂ) * ((norm3 fun j => (![1, 0, 0] : Fin 3 → ℝ) j -
              (![0, 0, 0] : Fin 3 → ℝ) j : ℝ) : ℂ)) *
      ((1 + Complex.I * (wavenumber 1 (some 1) : ℂ) *
          ((norm3 fun j => (![1, 0, 0] : Fin 3 → ℝ) j -
              (![0, 0, 0] : Fin 3 → ℝ) j : ℝ) : ℂ)) /
        (Complex.I * (wavenumber 1 (some 1) : ℂ) *
          ((norm3 fun j => (![1, 0, 0] : Fin 3 → ℝ) j -
              (![0, 0, 0] : Fin 3 → ℝ) j : ℝ) : ℂ) *
          (defs_rho0 : ℂ) * (defs_c : ℂ))) *
      ((((![1, 0, 0] : Fin 3 → ℝ) 0 - (![0, 0, 0] : Fin 3 → ℝ) 0 : ℝ) : ℂ) /
        ((norm3 fun j => (![1, 0, 0] : Fin 3 → ℝ) j -
            (![0, 0, 0] : Fin 3 → ℝ) j : ℝ) : ℂ)) :=
  ⟨by simp [norm3],
   point_velocity_formula 1 ![0, 0, 0] ![1, 0, 0] (some 1) 0
     (by simp [norm3])⟩

/-- C7, counterexample to the claim as stated: at `omega = 1`,
`x0 = (0,0,0)`, `X = (1,0,0)` and passed `c = 1` (so `r = 1 > 0`), the
returned x-velocity differs from the claimed formula
`exp(-j k r)/(4 pi r) * (1 + j k r)/(j k r rho c) * (X - x0)_0/r`
with `c` the call's sound speed: the code divides by the global
`defs.c = 343` instead. -/
theorem point_velocity_passed_c_counterexample :
    point_velocity 1 ![0, 0, 0] ![1, 0, 0] (some 1) 0 ≠
      Complex.exp (-Complex.I * (wavenumber 1 (some 1) : ℂ) *
          ((norm3 fun j => (![1, 0, 0] : Fin 3 → ℝ) j -
              (![0, 0, 0] : Fin 3 → ℝ) j : ℝ) : ℂ)) /
        (4 * (Real.pi : ℂ) * ((norm3 fun j => (![1, 0, 0] : Fin 3 → ℝ) j -
              (![0, 0, 0] : Fin 3 → ℝ) j : ℝ) : ℂ)) *
      ((1 + Complex.I * (wavenumber 1 (some 1) : ℂ) *
          ((norm3 fun j => (![1, 0, 0] : Fin 3 → ℝ) j -
              (![0, 0, 0] : Fin 3 → ℝ) j : ℝ) : ℂ)) /
        (Complex.I * (wavenumber 1 (some 1) : ℂ) *
          ((norm3 fun j => (![1, 0, 0] : Fin 3 → ℝ) j -
              (![0, 0, 0] : Fin 3 → ℝ) j : ℝ) : ℂ) *
          (defs_rho0 : ℂ) * ((1 : ℝ) : ℂ))) *
      ((((![1, 0, 0] : Fin 3 → ℝ) 0 - (![0, 0, 0] : Fin 3 → ℝ) 0 : ℝ) : ℂ) /
        ((norm3 fun j => (![1, 0, 0] : Fin 3 → ℝ) j -
            (![0, 0, 0] : Fin 3 → ℝ) j : ℝ) : ℂ)) := by
  intro h
  have hr1 : norm3 (fun j => (![1, 0, 0] : Fin 3 → ℝ) j -
      (![0, 0, 0] : Fin 3 → ℝ) j) = 1 := by
    simp [norm3]
  have hk : wavenumber 1 (some 1) = 1 := by simp [wavenumber]
  have hz : Complex.exp (-Complex.I) ≠ 0 := Complex.exp_ne_zero _
  have h1pI : (1 : ℂ) + Complex.I ≠ 0 := by
    intro h0
    have h1 := congrArg Complex.re h0
    simp at h1
  have hpi : (Real.pi : ℂ) ≠ 0 := by
    exact_mod_cast Real.pi_ne_zero
  have hrho : (defs_rho0 : ℂ) ≠ 0 := by norm_num [defs_rho0]
  have hden : (4 : ℂ) * (Real.pi : ℂ) * Complex.I * (defs_rho0 : ℂ) ≠ 0 := by
    refine mul_ne_zero (mul_ne_zero (mul_ne_zero ?_ hpi) Complex.I_ne_zero) hrho
    norm_num
  have hA : Complex.exp (-Complex.I) * (1 + Complex.I) /
      (4 * (Real.pi : ℂ) * Complex.I * (defs_rho0 : ℂ)) ≠ 0 :=
    div_ne_zero (mul_ne_zero hz h1pI) hden
  have e1 : point_velocity 1 ![0, 0, 0] ![1, 0, 0] (some 1) 0 =
      Complex.exp (-Complex.I) * (1 + Complex.I) /
        (4 * (Real.pi : ℂ) * Complex.I * (defs_rho0 : ℂ)) / (defs_c : ℂ) := by
    simp only [point_velocity, point, hr1, hk]
    push_cast
    simp only [Matrix.cons_val_zero, Matrix.cons_val_one, Matrix.head_cons,
      mul_one, one_mul, sub_zero, div_one, Complex.ofReal_one,
      Complex.ofReal_zero, mul_zero, zero_mul]
    ring
  have e2 : Complex.exp (-Complex.I * (wavenumber 1 (some 1) : ℂ) *
          ((norm3 fun j => (![1, 0, 0] : Fin 3 → ℝ) j -
              (![0, 0, 0] : Fin 3 → ℝ) j : ℝ) : ℂ)) /
        (4 * (Real.pi : ℂ) * ((norm3 fun j => (![1, 0, 0] : Fin 3 → ℝ) j -
              (![0, 0, 0] : Fin 3 → ℝ) j : ℝ) : ℂ)) *
      ((1 + Complex.I * (wavenumber 1 (some 1) : ℂ) *
          ((norm3 fun j => (![1, 0, 0] : Fin 3 → ℝ) j -
              (![0, 0, 0] : Fin 3 → ℝ) j : ℝ) : ℂ)) /
        (Complex.I * (wavenumber 1 (some 1) : ℂ) *
          ((norm3 fun j => (![1, 0, 0] : Fin 3 → ℝ) j -
              (![0, 0, 0] : Fin 3 → ℝ) j : ℝ) : ℂ) *
          (defs_rho0 : ℂ) * ((1 : ℝ) : ℂ))) *
      ((((![1, 0, 0] : Fin 3 → ℝ) 0 - (![0, 0, 0] : Fin 3 → ℝ) 0 : ℝ) : ℂ) /
        ((norm3 fun j => (![1, 0, 0] : Fin 3 → ℝ) j -
            (![0, 0, 0] : Fin 3 → ℝ) j : ℝ) : ℂ)) =
      Complex.exp (-Complex.I) * (1 + Complex.I) /
        (4 * (Real.pi : ℂ) * Complex.I * (defs_rho0 : ℂ)) := by
    rw [hr1, hk]
    push_cast
    simp only [Matrix.cons_val_zero, mul_one, one_mul, sub_zero, div_one,
      Complex.ofReal_one, Complex.ofReal_zero, mul_zero, zero_mul]
    ring
  rw [e1, e2] at h
  rw [div_eq_iff (by norm_num [defs_c] : (defs_c : ℂ) ≠ 0)] at h
  nth_rewrite 1 [← mul_one (Complex.exp (-Complex.I) * (1 + Complex.I) /
    (4 * (Real.pi : ℂ) * Complex.I * (defs_rho0 : ℂ)))] at h
  have h343 := mul_left_cancel₀ hA h
  norm_num [defs_c] at h343

/-- C5 (amended): the two in-plane components of `line_velocity` equal
`-1/(4 rho0 c0) H1(2)(k r)` times `offset_axis / r`, with `r` and the
offsets computed over the x, y axes only and `rho0, c0` the global
defaults `defs.rho0, defs.c` (the passed `c` enters only through `k`);
exactly when the grid has a third (z) component, a third velocity
component that is identically zero is appended. -/
theorem line_velocity_components (hankel2 : ℕ → ℂ → ℂ) (omega : ℝ)
    (x0 : Fin 3 → ℝ) (X : Fin 2 → ℝ) (hasZ : Bool) (c : Option ℝ) :
    line_velocity hankel2 omega x0 X hasZ c =
      (if hasZ then
        [-1 / (4 * (defs_rho0 : ℂ) * (defs_c : ℂ)) *
            hankel2 1 ((wavenumber omega c *
              norm2 (fun i => X i - x0 i.castSucc) : ℝ) : ℂ) *
            (((X 0 - x0 0 : ℝ) : ℂ) /
              ((norm2 (fun i => X i - x0 i.castSucc) : ℝ) : ℂ)),
         -1 / (4 * (defs_rho0 : ℂ) * (defs_c : ℂ)) *
            hankel2 1 ((wavenumber omega c *
              norm2 (fun i => X i - x0 i.castSucc) : ℝ) : ℂ) *
            (((X 1 - x0 1 : ℝ) : ℂ) /
              ((norm2 (fun i => X i - x0 i.castSucc) : ℝ) : ℂ)),
         0]
      else
        [-1 / (4 * (defs_rho0 : ℂ) * (defs_c : ℂ)) *
            hankel2 1 ((wavenumber omega c *
              norm2 (fun i => X i - x0 i.castSucc) : ℝ) : ℂ) *
            (((X 0 - x0 0 : ℝ) : ℂ) /
              ((norm2 (fun i => X i - x0 i.castSucc) : ℝ) : ℂ)),
         -1 / (4 * (defs_rho0 : ℂ) * (defs_c : ℂ)) *
            hankel2 1 ((wavenumber omega c *
              norm2 (fun i => X i - x0 i.castSucc) : ℝ) : ℂ) *
            (((X 1 - x0 1 : ℝ) : ℂ) /
              ((norm2 (fun i => X i - x0 i.castSucc) : ℝ) : ℂ))]) := by
  simp only [line_velocity, Fin.castSucc_zero, Fin.castSucc_one]
  cases hasZ
  · simp only [Bool.false_eq_true, if_false, List.cons.injEq, and_true]
    exact ⟨by push_cast; ring, by push_cast; ring⟩
  · simp only [if_true, List.cons_append, List.nil_append, List.cons.injEq,
      and_true]
    exact ⟨by push_cast; ring, by push_cast; ring⟩

/-- C5, counterexample to the claim as stated: with the Hankel primitive
instantiated as the constant 1, at `omega = 1`, `x0 = 0`, in-plane point
`(1, 0)`, a grid with z-component and passed `c = 1`, the first returned
component differs from the claimed
`-1/(4 rho c) H1(2)(k r) offset/r` with `c` the call's sound speed:
the code divides by the global `defs.c = 343` instead. -/
theorem line_velocity_passed_c_counterexample :
    line_velocity (fun _ _ => 1) 1 ![0, 0, 0] ![1, 0] true (some 1) ≠
      [-1 / (4 * (defs_rho0 : ℂ) * ((1 : ℝ) : ℂ)) *
          (fun _ _ => (1 : ℂ)) 1 ((wavenumber 1 (some 1) *
            norm2 (fun i => (![1, 0] : Fin 2 → ℝ) i -
              (![0, 0, 0] : Fin 3 → ℝ) i.castSucc) : ℝ) : ℂ) *
          ((((![1, 0] : Fin 2 → ℝ) 0 - (![0, 0, 0] : Fin 3 → ℝ) 0 : ℝ) : ℂ) /
            ((norm2 (fun i => (![1, 0] : Fin 2 → ℝ) i -
                (![0, 0, 0] : Fin 3 → ℝ) i.castSucc) : ℝ) : ℂ)),
       -1 / (4 * (defs_rho0 : ℂ) * ((1 : ℝ) : ℂ)) *
          (fun _ _ => (1 : ℂ)) 1 ((wavenumber 1 (some 1) *
            norm2 (fun i => (![1, 0] : Fin 2 → ℝ) i -
              (![0, 0, 0] : Fin 3 → ℝ) i.castSucc) : ℝ) : ℂ) *
          ((((![1, 0] : Fin 2 → ℝ) 1 - (![0, 0, 0] : Fin 3 → ℝ) 1 : ℝ) : ℂ) /
            ((norm2 (fun i => (![1, 0] : Fin 2 → ℝ) i -
                (![0, 0, 0] : Fin 3 → ℝ) i.castSucc) : ℝ) : ℂ)),
       0] := by
  intro h
  have hr1 : norm2 (fun i => (![1, 0] : Fin 2 → ℝ) i -
      (![0, 0, 0] : Fin 3 → ℝ) i.castSucc) = 1 := by
    simp [norm2]
  simp only [line_velocity, hr1, if_true, List.cons.injEq] at h
  norm_num [defs_c, defs_rho0, Complex.ext_iff] at h

lemma bdim_self (a : ℕ) : bdim a a = some a := by simp [bdim]

lemma bdim_one_left (a : ℕ) : bdim 1 a = some a := by
  rcases eq_or_ne a 1 with rfl | h
  · simp [bdim]
  · simp [bdim, Ne.symm h]

lemma bdim_one_right (a : ℕ) : bdim a 1 = some a := by
  rcases eq_or_ne a 1 with rfl | h
  · simp [bdim]
  · simp [bdim, h]

lemma bcastRev_nil_right : ∀ s : List ℕ, bcastRev s [] = some s := by
  intro s
  cases s <;> rfl

lemma bcastRev_self : ∀ s : List ℕ, bcastRev s s = some s := by
  intro s
  induction s with
  | nil => rfl
  | cons a t ih => simp [bcastRev, bdim_self, ih]

lemma bcast2_self (s : Shape) : bcast2 s s = some s := by
  simp [bcast2, bcastRev_self]

lemma bcast2_nil_left (s : Shape) : bcast2 [] s = some s := by
  simp [bcast2, bcastRev]

lemma bcast2_nil_right (s : Shape) : bcast2 s [] = some s := by
  simp [bcast2, bcastRev_nil_right]

lemma foldShape_const (T : Shape) : ∀ n : ℕ, foldShape (some T) (n + 1) = some T := by
  intro n
  induction n with
  | zero => simp [foldShape, bcast2_nil_left]
  | succ k ih =>
      rw [foldShape, ih]
      simp [bcast2_self]

lemma bcastRev_length : ∀ s t u : List ℕ, bcastRev s t = some u →
    u.length = max s.length t.length := by
  intro s
  induction s with
  | nil =>
      intro t u h
      simp [bcastRev] at h
      subst h
      simp
  | cons a s ih =>
      intro t u h
      cases t with
      | nil =>
          simp [bcastRev] at h
          subst h
          simp
      | cons b t =>
          simp only [bcastRev] at h
          cases hd : bdim a b with
          | none => rw [hd] at h; simp at h
          | some d =>
              cases hr : bcastRev s t with
              | none => rw [hd, hr] at h; simp at h
              | some r =>
                  rw [hd, hr] at h
                  simp at h
                  subst h
                  have hlen := ih t r hr
                  simp only [List.length_cons]
                  omega

lemma bcast2_length {s t u : Shape} (h : bcast2 s t = some u) :
    u.length = max s.length t.length := by
  simp only [bcast2, Option.map_eq_some'] at h
  obtain ⟨w, hw, rfl⟩ := h
  have := bcastRev_length _ _ _ hw
  simpa using this

lemma bcast3_length {sx sy sz s : Shape} (h : bcast3 sx sy sz = some s) :
    s.length = max (max sx.length sy.length) sz.length := by
  simp only [bcast3, Option.bind_eq_some] at h
  obtain ⟨st, h1, h2⟩ := h
  rw [bcast2_length h2, bcast2_length h1]

/-- A triple-nested mode sum over index lists vanishes as soon as one of
the per-axis lists is empty. -/
lemma nested_sum_zero (mm nn ll : List ℕ) (f : ℕ → ℕ → ℕ → ℂ)
    (h : mm = [] ∨ nn = [] ∨ ll = []) :
    (mm.map fun m =>
      ((nn.map fun n => ((ll.map fun l => f m n l).sum)).sum)).sum = 0 := by
  rcases h with rfl | rfl | rfl
  · simp
  · simp
  · simp

/-- C9: when the per-axis mode range is empty — scalar `N = 0`, or `N`
unspecified with `ceil(L_i/pi k) = 0` for some axis — `point_modal`
returns the scalar zero (the unmodified sum accumulator) and
`point_modal_velocity` three scalar complex zeros; in shape terms the
results keep the scalar shape `[]` rather than the grid's broadcast
shape, and no error is raised. -/
theorem point_modal_empty_range_scalar_zero (omega : ℝ)
    (x0 X L : Fin 3 → ℝ) (deltan : ℝ) (c : Option ℝ) (N : ModalN)
    (sx sy sz : Shape)
    (h : N = ModalN.scalar 0 ∨
      (N = ModalN.auto ∧ ∃ i : Fin 3,
        (Int.ceil (L i / Real.pi * wavenumber omega c)).toNat = 0)) :
    point_modal omega x0 X L N deltan c = 0 ∧
    point_modal_velocity omega x0 X L N deltan c = (0, 0, 0) ∧
    point_modal_shape sx sy sz (modeIndices (wavenumber omega c) L N).1
      (modeIndices (wavenumber omega c) L N).2.1
      (modeIndices (wavenumber omega c) L N).2.2 = some [] ∧
    point_modal_velocity_shape sx sy sz
      (modeIndices (wavenumber omega c) L N).1
      (modeIndices (wavenumber omega c) L N).2.1
      (modeIndices (wavenumber omega c) L N).2.2 = some ([], [], []) ∧
    (sx ≠ [] →
      point_modal_shape sx sy sz (modeIndices (wavenumber omega c) L N).1
        (modeIndices (wavenumber omega c) L N).2.1
        (modeIndices (wavenumber omega c) L N).2.2 ≠
        bcast3 sx sy sz) := by
  have hempty : (modeIndices (wavenumber omega c) L N).1 = [] ∨
      (modeIndices (wavenumber omega c) L N).2.1 = [] ∨
      (modeIndices (wavenumber omega c) L N).2.2 = [] := by
    rcases h with rfl | ⟨rfl, i, hi⟩
    · left
      simp [modeIndices]
    · fin_cases i
      · left
        simp only [modeIndices]
        exact List.range_eq_nil.mpr hi
      · right; left
        simp only [modeIndices]
        exact List.range_eq_nil.mpr hi
      · right; right
        simp only [modeIndices]
        exact List.range_eq_nil.mpr hi
  have hcount : (modeIndices (wavenumber omega c) L N).1.length *
      ((modeIndices (wavenumber omega c) L N).2.1.length *
        (modeIndices (wavenumber omega c) L N).2.2.length) = 0 := by
    rcases hempty with he | he | he <;> simp [he]
  have hshape : point_modal_shape sx sy sz
      (modeIndices (wavenumber omega c) L N).1
      (modeIndices (wavenumber omega c) L N).2.1
      (modeIndices (wavenumber omega c) L N).2.2 = some [] := by
    simp only [point_modal_shape, hcount, foldShape]
  refine ⟨?_, ?_, hshape, ?_, ?_⟩
  · rw [point_modal_eq_sum]
    exact nested_sum_zero _ _ _ _ hempty
  · rw [point_modal_velocity_eq]
    simp only [Prod.mk.injEq]
    refine ⟨?_, ?_, ?_⟩ <;> rw [nested_sum_zero _ _ _ _ hempty, neg_zero]
  · simp only [point_modal_velocity_shape, hcount, foldShape,
      Option.some_bind]
  · intro hsx heq
    rw [hshape] at heq
    have hlen := bcast3_length heq.symm
    simp only [List.length_nil] at hlen
    have h1 : sx.length = 0 := by omega
    exact hsx (List.eq_nil_of_length_eq_zero h1)

/-- Witness for C9 at the concrete input `N = 0` (scalar). -/
theorem point_modal_empty_range_scalar_zero_witness :
    point_modal 1 ![0, 0, 0] ![0, 0, 0] ![1, 1, 1] (.scalar 0) 0
      (some 1) = 0 ∧
    point_modal_velocity 1 ![0, 0, 0] ![0, 0, 0] ![1, 1, 1] (.scalar 0) 0
      (some 1) = (0, 0, 0) ∧
    point_modal_shape [1, 2] [3, 1] []
      (modeIndices (wavenumber 1 (some 1)) ![1, 1, 1] (.scalar 0)).1
      (modeIndices (wavenumber 1 (some 1)) ![1, 1, 1] (.scalar 0)).2.1
      (modeIndices (wavenumber 1 (some 1)) ![1, 1, 1] (.scalar 0)).2.2 =
      some [] ∧
    point_modal_velocity_shape [1, 2] [3, 1] []
      (modeIndices (wavenumber 1 (some 1)) ![1, 1, 1] (.scalar 0)).1
      (modeIndices (wavenumber 1 (some 1)) ![1, 1, 1] (.scalar 0)).2.1
      (modeIndices (wavenumber 1 (some 1)) ![1, 1, 1] (.scalar 0)).2.2 =
      some ([], [], []) ∧
    ([1, 2] ≠ ([] : Shape) →
      point_modal_shape [1, 2] [3, 1] []
        (modeIndices (wavenumber 1 (some 1)) ![1, 1, 1] (.scalar 0)).1
        (modeIndices (wavenumber 1 (some 1)) ![1, 1, 1] (.scalar 0)).2.1
        (modeIndices (wavenumber 1 (some 1)) ![1, 1, 1] (.scalar 0)).2.2 ≠
        bcast3 [1, 2] [3, 1] []) :=
  point_modal_empty_range_scalar_zero 1 ![0, 0, 0] ![0, 0, 0] ![1, 1, 1]
    0 (some 1) (.scalar 0) [1, 2] [3, 1] [] (Or.inl rfl)

/-- C6: on a canonical 3D grid the pressure returned by `line` is
constant along the z axis: every z-slice is identical and equal to the
2D result `-(j/4) H0(2)(k r)` tiled across the z extent, and on a grid
whose broadcast shape has no third dimension the 2D result is returned
unchanged (both at value level and for `_duplicate_zdirection` on
shapes of length at most two). -/
theorem line_z_invariance (hankel2 : ℕ → ℂ → ℂ) (omega : ℝ)
    (x0 : Fin 3 → ℝ) {nx ny : ℕ} (xs : Fin nx → ℝ) (ys : Fin ny → ℝ)
    (nz : ℕ) (c : Option ℝ) :
    (∀ (i j : Fin nz) (a : Fin ny) (b : Fin nx),
      line_grid3 hankel2 omega x0 xs ys nz c a b i =
        line_grid3 hankel2 omega x0 xs ys nz c a b j) ∧
    (∀ (i : Fin nz) (a : Fin ny) (b : Fin nx),
      line_grid3 hankel2 omega x0 xs ys nz c a b i =
        (-Complex.I) / 4 * hankel2 0 ((wavenumber omega c : ℝ) *
          ((norm2 (fun t => ![xs b, ys a] t - x0 t.castSucc) : ℝ) : ℂ))) ∧
    (∀ (a : Fin ny) (b : Fin nx),
      line_grid2 hankel2 omega x0 xs ys c a b =
        (-Complex.I) / 4 * hankel2 0 ((wavenumber omega c : ℝ) *
          ((norm2 (fun t => ![xs b, ys a] t - x0 t.castSucc) : ℝ) : ℂ))) ∧
    (∀ (p : Shape) (a b : ℕ), dupZShape p [a, b] = p) ∧
    (∀ (p : Shape) (a : ℕ), dupZShape p [a] = p) ∧
    (∀ p : Shape, dupZShape p [] = p) := by
  refine ⟨fun i j a b => rfl, fun i a b => rfl, fun a b => rfl,
    fun p a b => ?_, fun p a => ?_, fun p => ?_⟩ <;>
    simp [dupZShape]

lemma bcast2_c3_xy (nx ny : ℕ) :
    bcast2 [1, nx, 1] [ny, 1, 1] = some [ny, nx, 1] := by
  simp [bcast2, bcastRev, bdim_one_left, bdim_one_right]

lemma bcast3_c3 (nx ny nz : ℕ) :
    bcast3 [1, nx, 1] [ny, 1, 1] [1, 1, nz] = some [ny, nx, nz] := by
  rw [bcast3, bcast2_c3_xy, Option.some_bind]
  simp [bcast2, bcastRev, bdim_one_left, bdim_one_right]

lemma bcast2_c2_xy (nx ny : ℕ) :
    bcast2 [1, nx] [ny, 1] = some [ny, nx] := by
  simp [bcast2, bcastRev, bdim_one_left, bdim_one_right]

lemma bcast3_c2 (nx ny : ℕ) :
    bcast3 [1, nx] [ny, 1] [] = some [ny, nx] := by
  rw [bcast3, bcast2_c2_xy, Option.some_bind]
  exact bcast2_nil_right _

lemma bcast2_c3_vx (nx ny nz : ℕ) :
    bcast2 [ny, nx, nz] [1, nx, 1] = some [ny, nx, nz] := by
  simp [bcast2, bcastRev, bdim_one_left, bdim_one_right, bdim_self]

lemma bcast2_c3_vy (nx ny nz : ℕ) :
    bcast2 [ny, nx, nz] [ny, 1, 1] = some [ny, nx, nz] := by
  simp [bcast2, bcastRev, bdim_one_left, bdim_one_right, bdim_self]

lemma bcast2_c3_vz (nx ny nz : ℕ) :
    bcast2 [ny, nx, nz] [1, 1, nz] = some [ny, nx, nz] := by
  simp [bcast2, bcastRev, bdim_one_left, bdim_one_right, bdim_self]

lemma bcast2_c2_vx (nx ny : ℕ) :
    bcast2 [ny, nx] [1, nx] = some [ny, nx] := by
  simp [bcast2, bcastRev, bdim_one_left, bdim_one_right, bdim_self]

lemma bcast2_c2_vy (nx ny : ℕ) :
    bcast2 [ny, nx] [ny, 1] = some [ny, nx] := by
  simp [bcast2, bcastRev, bdim_one_left, bdim_one_right, bdim_self]

lemma bcast2_r2z3 (nx ny nz : ℕ) :
    bcast2 [ny, nx, 1] [1, 1, nz] = some [ny, nx, nz] := by
  simp [bcast2, bcastRev, bdim_one_left, bdim_one_right, bdim_self]

lemma bcast2_r2x3 (nx ny : ℕ) :
    bcast2 [ny, nx, 1] [1, nx, 1] = some [ny, nx, 1] := by
  simp [bcast2, bcastRev, bdim_one_left, bdim_one_right, bdim_self]

lemma bcast2_r2y3 (nx ny : ℕ) :
    bcast2 [ny, nx, 1] [ny, 1, 1] = some [ny, nx, 1] := by
  simp [bcast2, bcastRev, bdim_one_left, bdim_one_right, bdim_self]

lemma dupZ_c3 (nx ny nz : ℕ) :
    dupZShape [ny, nx, 1] [ny, nx, nz] = [ny, nx, nz] := by
  simp [dupZShape, tileShape, List.getD]

lemma dupZ_c2 (p : Shape) (a b : ℕ) : dupZShape p [a, b] = p := by
  simp [dupZShape]

lemma point_shape_c3 (nx ny nz : ℕ) :
    point_shape [1, nx, 1] [ny, 1, 1] [1, 1, nz] = some [ny, nx, nz] := by
  rw [point_shape, bcast3_c3, Option.some_bind, bcast2_self]

lemma point_shape_c2 (nx ny : ℕ) :
    point_shape [1, nx] [ny, 1] [] = some [ny, nx] := by
  rw [point_shape, bcast3_c2, Option.some_bind, bcast2_self]

lemma point_velocity_shape_c3 (nx ny nz : ℕ) :
    point_velocity_shape [1, nx, 1] [ny, 1, 1] [1, 1, nz] =
      some ([ny, nx, nz], [ny, nx, nz], [ny, nx, nz]) := by
  simp [point_velocity_shape, bcast3_c3, point_shape_c3, bcast2_self,
    bcast2_c3_vx, bcast2_c3_vy, bcast2_c3_vz]

lemma point_velocity_shape_c2 (nx ny : ℕ) :
    point_velocity_shape [1, nx] [ny, 1] [] =
      some ([ny, nx], [ny, nx], [ny, nx]) := by
  simp [point_velocity_shape, bcast3_c2, point_shape_c2, bcast2_self,
    bcast2_c2_vx, bcast2_c2_vy, bcast2_nil_right]

lemma line_shape_c3 (nx ny nz : ℕ) :
    line_shape [1, nx, 1] [ny, 1, 1] [1, 1, nz] = some [ny, nx, nz] := by
  simp [line_shape, bcast2_c3_xy, bcast3_c3, dupZ_c3]

lemma line_shape_c2 (nx ny : ℕ) :
    line_shape [1, nx] [ny, 1] [] = some [ny, nx] := by
  simp [line_shape, bcast2_c2_xy, bcast3_c2, dupZ_c2]

lemma line_velocity_shape_c3 (nx ny nz : ℕ) :
    line_velocity_shape [1, nx, 1] [ny, 1, 1] (some [1, 1, nz]) =
      some [[ny, nx, nz], [ny, nx, nz], [ny, nx, nz]] := by
  simp [line_velocity_shape, bcast2_c3_xy, bcast2_r2x3, bcast2_r2y3,
    bcast2_self, bcast3_c3, dupZ_c3]

lemma line_velocity_shape_c2 (nx ny : ℕ) :
    line_velocity_shape [1, nx] [ny, 1] (some []) =
      some [[ny, nx], [ny, nx], [ny, nx]] := by
  simp [line_velocity_shape, bcast2_c2_xy, bcast2_c2_vx, bcast2_c2_vy,
    bcast2_self, bcast3_c2, dupZ_c2]

lemma line_dipole_shape_c3 (nx ny nz : ℕ) :
    line_dipole_shape [1, nx, 1] [ny, 1, 1] [1, 1, nz] =
      some [ny, nx, nz] := by
  simp [line_dipole_shape, bcast2_c3_xy, bcast2_self, bcast3_c3, dupZ_c3]

lemma line_dipole_shape_c2 (nx ny : ℕ) :
    line_dipole_shape [1, nx] [ny, 1] [] = some [ny, nx] := by
  simp [line_dipole_shape, bcast2_c2_xy, bcast2_self, bcast3_c2, dupZ_c2]

lemma point_modal_shape_c3 (nx ny nz a b d : ℕ) :
    point_modal_shape [1, nx, 1] [ny, 1, 1] [1, 1, nz]
      (List.range (a + 1)) (List.range (b + 1)) (List.range (d + 1)) =
      some [ny, nx, nz] := by
  rw [point_modal_shape]
  simp only [List.length_range]
  have hT : ((bcast2 [] [1, nx, 1]).bind fun u =>
      (bcast2 u [ny, 1, 1]).bind fun w => bcast2 w [1, 1, nz]) =
      some [ny, nx, nz] := by
    simp [bcast2_nil_left, bcast2_c3_xy, bcast2_r2z3]
  rw [hT]
  obtain ⟨k, hk⟩ : ∃ k, (a + 1) * ((b + 1) * (d + 1)) = k + 1 :=
    ⟨(a + 1) * ((b + 1) * (d + 1)) - 1,
      (Nat.succ_pred_eq_of_pos (by positivity)).symm⟩
  rw [hk, foldShape_const]

lemma point_modal_shape_c2 (nx ny a b d : ℕ) :
    point_modal_shape [1, nx] [ny, 1] []
      (List.range (a + 1)) (List.range (b + 1)) (List.range (d + 1)) =
      some [ny, nx] := by
  rw [point_modal_shape]
  simp only [List.length_range]
  have hT : ((bcast2 [] [1, nx]).bind fun u =>
      (bcast2 u [ny, 1]).bind fun w => bcast2 w []) = some [ny, nx] := by
    simp [bcast2_nil_left, bcast2_c2_xy, bcast2_nil_right]
  rw [hT]
  obtain ⟨k, hk⟩ : ∃ k, (a + 1) * ((b + 1) * (d + 1)) = k + 1 :=
    ⟨(a + 1) * ((b + 1) * (d + 1)) - 1,
      (Nat.succ_pred_eq_of_pos (by positivity)).symm⟩
  rw [hk, foldShape_const]

lemma point_modal_velocity_shape_canonical (sx sy sz : Shape)
    (a b d : ℕ) :
    point_modal_velocity_shape sx sy sz
      (List.range (a + 1)) (List.range (b + 1)) (List.range (d + 1)) =
      some (sx, sy, sz) := by
  rw [point_modal_velocity_shape]
  simp only [List.length_range]
  obtain ⟨k, hk⟩ : ∃ k, (a + 1) * ((b + 1) * (d + 1)) = k + 1 :=
    ⟨(a + 1) * ((b + 1) * (d + 1)) - 1,
      (Nat.succ_pred_eq_of_pos (by positivity)).symm⟩
  rw [hk]
  simp [bcast2_nil_left, foldShape_const]

/-- C4, counterexample to the claim as stated: on the canonical 2D grid
with component shapes `[1,2]`, `[3,1]`, `[]` (broadcast shape `[3,2]`)
and `N = 1` (scalar, mode ranges `[0]` per axis), the three arrays
returned by `point_modal_velocity` have the per-axis component shapes
`[1,2]`, `[3,1]`, `[]` — not the grid's broadcast shape. -/
theorem modal_velocity_shape_counterexample :
    modeIndices (wavenumber 1 (some 1)) ![1, 1, 1] (.scalar 1) =
      ([0], [0], [0]) ∧
    bcast3 [1, 2] [3, 1] [] = some [3, 2] ∧
    point_modal_velocity_shape [1, 2] [3, 1] [] [0] [0] [0] =
      some ([1, 2], [3, 1], []) ∧
    point_modal_velocity_shape [1, 2] [3, 1] [] [0] [0] [0] ≠
      some ([3, 2], [3, 2], [3, 2]) :=
  ⟨rfl, by decide, by decide, by decide⟩

/-- C4 (amended): on canonical grids — each coordinate component varying
along its own broadcast axis, 3D `[1,nx,1], [ny,1,1], [1,1,nz]` or 2D
`[1,nx], [ny,1], []` — the fields returned by `point`, `point_velocity`,
`line`, `line_velocity`, `line_dipole`, `plane` and `plane_velocity` have
the broadcast shape of the grid's three components (after any required
z-duplication), and so does `point_modal` whenever every per-axis mode
range is non-empty; the three arrays of `point_modal_velocity` instead
keep the per-axis component shapes, un-broadcast to the full grid. -/
theorem field_shapes_on_canonical_grids (nx ny nz a b d : ℕ) :
    (bcast3 [1, nx, 1] [ny, 1, 1] [1, 1, nz] = some [ny, nx, nz] ∧
     point_shape [1, nx, 1] [ny, 1, 1] [1, 1, nz] = some [ny, nx, nz] ∧
     point_velocity_shape [1, nx, 1] [ny, 1, 1] [1, 1, nz] =
       some ([ny, nx, nz], [ny, nx, nz], [ny, nx, nz]) ∧
     line_shape [1, nx, 1] [ny, 1, 1] [1, 1, nz] = some [ny, nx, nz] ∧
     line_velocity_shape [1, nx, 1] [ny, 1, 1] (some [1, 1, nz]) =
       some [[ny, nx, nz], [ny, nx, nz], [ny, nx, nz]] ∧
     line_dipole_shape [1, nx, 1] [ny, 1, 1] [1, 1, nz] =
       some [ny, nx, nz] ∧
     plane_shape [1, nx, 1] [ny, 1, 1] [1, 1, nz] = some [ny, nx, nz] ∧
     plane_velocity_shape [1, nx, 1] [ny, 1, 1] [1, 1, nz] =
       some ([ny, nx, nz], [ny, nx, nz], [ny, nx, nz]) ∧
     point_modal_shape [1, nx, 1] [ny, 1, 1] [1, 1, nz]
       (List.range (a + 1)) (List.range (b + 1)) (List.range (d + 1)) =
       some [ny, nx, nz] ∧
     point_modal_velocity_shape [1, nx, 1] [ny, 1, 1] [1, 1, nz]
       (List.range (a + 1)) (List.range (b + 1)) (List.range (d + 1)) =
       some ([1, nx, 1], [ny, 1, 1], [1, 1, nz])) ∧
    (bcast3 [1, nx] [ny, 1] [] = some [ny, nx] ∧
     point_shape [1, nx] [ny, 1] [] = some [ny, nx] ∧
     point_velocity_shape [1, nx] [ny, 1] [] =
       some ([ny, nx], [ny, nx], [ny, nx]) ∧
     line_shape [1, nx] [ny, 1] [] = some [ny, nx] ∧
     line_velocity_shape [1, nx] [ny, 1] (some []) =
       some [[ny, nx], [ny, nx], [ny, nx]] ∧
     line_dipole_shape [1, nx] [ny, 1] [] = some [ny, nx] ∧
     plane_shape [1, nx] [ny, 1] [] = some [ny, nx] ∧
     plane_velocity_shape [1, nx] [ny, 1] [] =
       some ([ny, nx], [ny, nx], [ny, nx]) ∧
     point_modal_shape [1, nx] [ny, 1] []
       (List.range (a + 1)) (List.range (b + 1)) (List.range (d + 1)) =
       some [ny, nx] ∧
     point_modal_velocity_shape [1, nx] [ny, 1] []
       (List.range (a + 1)) (List.range (b + 1)) (List.range (d + 1)) =
       some ([1, nx], [ny, 1], [])) :=
  ⟨⟨bcast3_c3 nx ny nz, point_shape_c3 nx ny nz,
    point_velocity_shape_c3 nx ny nz, line_shape_c3 nx ny nz,
    line_velocity_shape_c3 nx ny nz, line_dipole_shape_c3 nx ny nz,
    bcast3_c3 nx ny nz,
    by simp [plane_velocity_shape, bcast3_c3],
    point_modal_shape_c3 nx ny nz a b d,
    point_modal_velocity_shape_canonical [1, nx, 1] [ny, 1, 1] [1, 1, nz]
      a b d⟩,
   ⟨bcast3_c2 nx ny, point_shape_c2 nx ny, point_velocity_shape_c2 nx ny,
    line_shape_c2 nx ny, line_velocity_shape_c2 nx ny,
    line_dipole_shape_c2 nx ny, bcast3_c2 nx ny,
    by simp [plane_velocity_shape, bcast3_c2],
    point_modal_shape_c2 nx ny a b d,
    point_modal_velocity_shape_canonical [1, nx] [ny, 1] [] a b d⟩⟩

end SFS

end
